import Mathlib

/-!
Shallow embedding of the feature-layout and alignment-glyph engine of the
igv.js chain/self-pair track code (src/js/feature/chainTrack.js and the
unnamed render module), together with proofs settling the frozen claims
about it.  Genomic coordinates and row ends are modelled as integers,
pixel-space and bases-per-pixel quantities as rationals, and JavaScript
strings as lists of characters.  JavaScript number positions produced by
the alignment decoder (which can be half-integral, from the `refPos - 0.5`
insertion convention) are modelled as rationals.
-/

namespace ChainTrack

/-- One parsed CIGAR operation: a length and an opcode character,
mirroring the objects pushed by `parseCigar`. -/
structure CigOp where
  length : Nat
  operation : Char
deriving DecidableEq, Repr

/-- The opcode character class of the regex `(\d+)([MIDNSHPX=])` in
`parseCigar`. -/
def opChars : List Char := ['M', 'I', 'D', 'N', 'S', 'H', 'P', 'X', '=']

/-- Maximal leading run of digit characters, and the rest of the input:
the behaviour of the greedy `\d+` in the `parseCigar` regex. -/
def readDigits : List Char → List Char × List Char
  | [] => ([], [])
  | c :: rest =>
    if c.isDigit then
      let (ds, rest') := readDigits rest
      (c :: ds, rest')
    else ([], c :: rest)

/-- Decimal value of a digit run, as computed by `parseInt(match[1])`. -/
def digitsVal (ds : List Char) : Nat :=
  ds.foldl (fun n c => 10 * n + (c.toNat - '0'.toNat)) 0

/-- Scanner for the repeated `regex.exec(cigar)` loop of `parseCigar`:
at each position, a maximal digit run followed by an opcode character is a
match (consumed whole); otherwise the scan restarts one character later.
The fuel argument (initially the string length) only bounds the recursion;
each step consumes at least one character. -/
def parseCigarGo : Nat → List Char → List CigOp
  | 0, _ => []
  | _ + 1, [] => []
  | fuel + 1, c :: rest =>
    if c.isDigit then
      match readDigits (c :: rest) with
      | (ds, rest') =>
        match rest' with
        | op :: rest'' =>
          if op ∈ opChars then
            CigOp.mk (digitsVal ds) op :: parseCigarGo fuel rest''
          else
            parseCigarGo fuel rest
        | [] => []
    else
      parseCigarGo fuel rest

/-- Parse a CIGAR string into an array of operations
(`parseCigar` of chainTrack.js; the `if (!cigar) return []` guard is
subsumed because scanning an empty string yields no matches). -/
def parseCigar (cigar : String) : List CigOp :=
  parseCigarGo cigar.data.length cigar.data

/-- State of the decoding loop of `getAlignedSequence`: the `aligned`
string and `positions` array built so far and the final values of the
loop-local cursors `seqPos` and `refPos` (locals of the source function,
exposed here so that conservation invariants can be stated). -/
structure AlignResult where
  aligned : List Char
  positions : List ℚ
  seqPos : Nat
  refPos : Nat
deriving DecidableEq, Repr

/-- The `case 'M': case '=': case 'X'` loop body of `getAlignedSequence`,
iterated `op.length` times: emit a query character at offset `refPos`
while query characters remain; advance `refPos` unconditionally. -/
def decodeM (sequence : List Char) : Nat → AlignResult → AlignResult
  | 0, st => st
  | n + 1, st =>
    if h : st.seqPos < sequence.length then
      decodeM sequence n
        { aligned := st.aligned ++ [sequence.get ⟨st.seqPos, h⟩]
          positions := st.positions ++ [(st.refPos : ℚ)]
          seqPos := st.seqPos + 1
          refPos := st.refPos + 1 }
    else
      decodeM sequence n { st with refPos := st.refPos + 1 }

/-- The `case 'I'` loop body of `getAlignedSequence`, iterated
`op.length` times: emit a lowercased query character at offset
`refPos - 0.5` while query characters remain; `refPos` does not move.
Lowercasing models the ASCII effect of `toLowerCase()`. -/
def decodeI (sequence : List Char) : Nat → AlignResult → AlignResult
  | 0, st => st
  | n + 1, st =>
    if h : st.seqPos < sequence.length then
      decodeI sequence n
        { st with
          aligned := st.aligned ++ [(sequence.get ⟨st.seqPos, h⟩).toLower]
          positions := st.positions ++ [(st.refPos : ℚ) - 0.5]
          seqPos := st.seqPos + 1 }
    else
      decodeI sequence n st

/-- The `case 'D'` loop body of `getAlignedSequence`, iterated
`op.length` times: emit a gap placeholder at offset `refPos` and advance
`refPos`; the query cursor does not move. -/
def decodeD : Nat → AlignResult → AlignResult
  | 0, st => st
  | n + 1, st =>
    decodeD n
      { st with
        aligned := st.aligned ++ ['-']
        positions := st.positions ++ [(st.refPos : ℚ)]
        refPos := st.refPos + 1 }

/-- The `switch (op.operation)` of `getAlignedSequence`: `N` advances the
reference only, `S`/`H` advance the query only, and any other opcode
(such as `P`) falls through without effect. -/
def decodeOp (sequence : List Char) (st : AlignResult) (op : CigOp) : AlignResult :=
  if op.operation = 'M' ∨ op.operation = '=' ∨ op.operation = 'X' then
    decodeM sequence op.length st
  else if op.operation = 'I' then
    decodeI sequence op.length st
  else if op.operation = 'D' then
    decodeD op.length st
  else if op.operation = 'N' then
    { st with refPos := st.refPos + op.length }
  else if op.operation = 'S' ∨ op.operation = 'H' then
    { st with seqPos := st.seqPos + op.length }
  else
    st

/-- Convert sequence and CIGAR string to an aligned sequence and
reference-relative positions (`getAlignedSequence` of chainTrack.js).
The `componentStart` argument is accepted but never read, exactly as in
the source.  The `if (!sequence || !cigar)` early return yields
`sequence || two-quote empty string` with no positions; `aligned := sequence`
covers both falsy cases since an empty list models the empty string. -/
def getAlignedSequence (sequence : List Char) (cigar : String)
    (componentStart : Int) : AlignResult :=
  if sequence = [] ∨ cigar = "" then
    { aligned := sequence, positions := [], seqPos := 0, refPos := 0 }
  else
    (parseCigar cigar).foldl (decodeOp sequence)
      { aligned := [], positions := [], seqPos := 0, refPos := 0 }

/-- Claim-side helper: the summed lengths of the query-consuming
operations M, I, S, = and X of an operation list. -/
def cigarQueryLen (ops : List CigOp) : Nat :=
  (ops.filter fun op =>
      op.operation = 'M' ∨ op.operation = 'I' ∨ op.operation = 'S' ∨
      op.operation = '=' ∨ op.operation = 'X').foldr
    (fun op n => op.length + n) 0

/-- Claim-side helper: the summed reference-length contributions of the
operations M, D, N, = and X of an operation list. -/
def cigarRefLen (ops : List CigOp) : Nat :=
  (ops.filter fun op =>
      op.operation = 'M' ∨ op.operation = 'D' ∨ op.operation = 'N' ∨
      op.operation = '=' ∨ op.operation = 'X').foldr
    (fun op n => op.length + n) 0

/-- Claim-side helper: does the operation list contain no clipping
(S or H) operations? -/
def noClip (ops : List CigOp) : Prop :=
  ∀ op ∈ ops, op.operation ≠ 'S' ∧ op.operation ≠ 'H'

/-- Claim-side description of the characters the decode emits from the
query: walking the operation list from query position `qpos`, the
operations M, = and X emit the consumed query characters unchanged, I
emits them lowercased, and D, N and every other opcode emit nothing
(S and H are not expected here; they skip query characters and are
treated as emitting nothing while advancing the cursor). -/
def lowerInsSpec (q : List Char) : Nat → List CigOp → List Char
  | _, [] => []
  | qpos, op :: ops =>
    if op.operation = 'M' ∨ op.operation = '=' ∨ op.operation = 'X' then
      (q.drop qpos).take op.length ++ lowerInsSpec q (qpos + op.length) ops
    else if op.operation = 'I' then
      ((q.drop qpos).take op.length).map Char.toLower ++
        lowerInsSpec q (qpos + op.length) ops
    else if op.operation = 'S' ∨ op.operation = 'H' then
      lowerInsSpec q (qpos + op.length) ops
    else
      lowerInsSpec q qpos ops

end ChainTrack

/-- JavaScript's Number.MAX_SAFE_INTEGER, the default row cap of the
packers when the caller passes a falsy `maxRows`. -/
def maxSafeInteger : Nat := 9007199254740991

/-- First-occurrence deduplication: the key order of a JavaScript object
or Map built by inserting keys while iterating a list. -/
def firstOccur {α : Type} [DecidableEq α] (l : List α) : List α :=
  l.foldl (fun acc k => if k ∈ acc then acc else acc ++ [k]) []

namespace ChainTrack

/-- A chain feature as consumed by the packers: an identity (JavaScript
object identity, used to report row assignments), chromosome, optional
name, and genomic interval.  The field `fend` models `feature.end`
(`end` is a reserved word in Lean). -/
structure Feature where
  id : Nat
  chr : String
  name : Option String
  start : Int
  fend : Int
deriving DecidableEq, Repr

/-- The local constant `extensionLen = 30` of the packers. -/
def extensionLen : ℚ := 30

/-- Visual interval of a feature, as computed identically in `pack` and
`packClustered`: when the feature is wide enough on screen for extension
arms, the raw span is widened by
`ceil((2 * (extensionLen + extensionLabelWidth)) * bpPerPixel)` base
pairs on each side.  The parameter `w` is the extension label width
(`ctx.measureText(...)` when a context is handed in, 40 otherwise). -/
def visualSpan (bpp w : ℚ) (f : Feature) : Int × Int :=
  if ((f.fend - f.start : ℤ) : ℚ) / bpp > 3 * extensionLen then
    let extraBp : Int := ⌈(2 * (extensionLen + w)) * bpp⌉
    (f.start - extraBp, f.fend + extraBp)
  else
    (f.start, f.fend)

/-- Sorting by ascending `start`, the comparator
`(a, b) => a.start - b.start` under JavaScript's stable `Array.sort`
(insertion sort is stable, hence produces the same list). -/
def sortByStart (l : List Feature) : List Feature :=
  l.insertionSort fun a b => a.start ≤ b.start

/-- Loop of `pack`: for each feature in sorted order, scan rows
`0 ≤ r < min(rows.length, maxRows)` and place the feature in the first
row with `visualStart >= rows[r]`, updating that row's end; otherwise,
when `rows.length < maxRows`, open a new row (the source writes
`rows[r] = visualEnd` at `r = rows.length`, which appends); otherwise
leave the feature unassigned.  The returned association list maps
feature identities to assigned rows. -/
def packGo (maxRows : Nat) (bpp w : ℚ) : List Feature → List Int → List (Nat × Nat)
  | [], _ => []
  | f :: fs, rows =>
    let vs := (visualSpan bpp w f).1
    let ve := (visualSpan bpp w f).2
    match (rows.take maxRows).findIdx? (fun e => decide (vs ≥ e)) with
    | some r => (f.id, r) :: packGo maxRows bpp w fs (rows.set r ve)
    | none =>
      if rows.length < maxRows then
        (f.id, rows.length) :: packGo maxRows bpp w fs (rows ++ [ve])
      else
        packGo maxRows bpp w fs rows

/-- Greedy packer `pack` of ChainTrack: sort by start, seed the row-end
array with a single `-1000` entry (`rows.push(-1000)`), then place
features first-fit.  A falsy (zero) `maxRows` argument becomes
`Number.MAX_SAFE_INTEGER`, as in `maxRows = maxRows || ...`. -/
def pack (bpp w : ℚ) (maxRows0 : Nat) (featureList : List Feature) : List (Nat × Nat) :=
  let maxRows := if maxRows0 = 0 then maxSafeInteger else maxRows0
  packGo maxRows bpp w (sortByStart featureList) [-1000]

/-- JavaScript's `rows[r] || -1000` of `packClustered`: a zero row end is
falsy and is replaced by -1000. -/
def rowVal (v : Int) : Int :=
  if v = 0 then -1000 else v

/-- Grouping key of `packClustered`: `feature.name || "__no_name__"`,
where both a missing name and the falsy empty-string name fall back to
the sentinel key. -/
def nameKey (f : Feature) : String :=
  match f.name with
  | some s => if s = "" then "__no_name__" else s
  | none => "__no_name__"

/-- Per-group loop of `packClustered`: identical first-fit placement to
`packGo`, except that a stored row end is read through `rows[r] || -1000`.
The row-end array `rows` is threaded through and returned, because in
the source it is shared across all name groups. -/
def packClusteredGroupGo (maxRows : Nat) (bpp w : ℚ) :
    List Feature → List Int → List (Nat × Nat) × List Int
  | [], rows => ([], rows)
  | f :: fs, rows =>
    let vs := (visualSpan bpp w f).1
    let ve := (visualSpan bpp w f).2
    match (rows.take maxRows).findIdx? (fun e => decide (vs ≥ rowVal e)) with
    | some r =>
      let res := packClusteredGroupGo maxRows bpp w fs (rows.set r ve)
      ((f.id, r) :: res.1, res.2)
    | none =>
      if rows.length < maxRows then
        let res := packClusteredGroupGo maxRows bpp w fs (rows ++ [ve])
        ((f.id, rows.length) :: res.1, res.2)
      else
        packClusteredGroupGo maxRows bpp w fs rows

/-- Iteration over the name groups of `packClustered`, in first-occurrence
key order of the `Map`; each group is sorted by start and packed with the
row-end array carried over from the previous groups. -/
def packClusteredKeysGo (maxRows : Nat) (bpp w : ℚ) (l : List Feature) :
    List String → List Int → List (Nat × Nat)
  | [], _ => []
  | k :: ks, rows =>
    let res := packClusteredGroupGo maxRows bpp w
      (sortByStart (l.filter fun f => nameKey f = k)) rows
    res.1 ++ packClusteredKeysGo maxRows bpp w l ks res.2

/-- Clustering packer `packClustered` of ChainTrack: group features by
`feature.name || "__no_name__"`, then pack each group greedily; the
row-end array `rows` is declared once, outside the group loop, and is
shared by every group.  `w` is the extension label width (40 when no
canvas context is handed in). -/
def packClustered (bpp w : ℚ) (maxRows0 : Nat) (featureList : List Feature) :
    List (Nat × Nat) :=
  let maxRows := if maxRows0 = 0 then maxSafeInteger else maxRows0
  packClusteredKeysGo maxRows bpp w featureList
    (firstOccur (featureList.map nameKey)) []

/-- A feature together with its mutable `row` field (`undefined` is
`none`); `packFeatures` rewrites the second component in place. -/
def TrackFeature : Type := Feature × Option Nat

/-- Evaluation of the optional filter predicate of `packFeatures`:
absent means every feature passes. -/
def passes (filterFn : Option (TrackFeature → Bool)) (fr : TrackFeature) : Bool :=
  match filterFn with
  | none => true
  | some p => p fr

/-- The features surviving the filter, stripped to their immutable part:
the contents of `chrFeatureMap` in `packFeatures`. -/
def passingCores (filterFn : Option (TrackFeature → Bool))
    (features : List TrackFeature) : List Feature :=
  (features.filter (passes filterFn)).map Prod.fst

/-- Dispatch of `packFeatures` between `packClustered` and `pack` for one
chromosome group, driven by `this.clusterNamedAnnotations`. -/
def packChr (cluster : Bool) (bpp w : ℚ) (maxRows : Nat)
    (group : List Feature) : List (Nat × Nat) :=
  if cluster then packClustered bpp w maxRows group
  else pack bpp w maxRows group

/-- All row assignments produced by one `packFeatures` pass: features are
partitioned by chromosome in first-occurrence order and each chromosome
group is packed independently. -/
def asnOf (cluster : Bool) (bpp w : ℚ) (maxRows : Nat)
    (cores : List Feature) : List (Nat × Nat) :=
  ((firstOccur (cores.map Feature.chr)).map fun c =>
    packChr cluster bpp w maxRows (cores.filter fun f => f.chr = c)).flatten

/-- In-place effect of `packFeatures` on one feature: a filtered-out
feature gets `row = undefined`; a packed feature gets its assigned row; a
feature the packers left unplaced (row cap exhausted) keeps whatever row
value it already had. -/
def applyRowDecision (filterFn : Option (TrackFeature → Bool))
    (asn : List (Nat × Nat)) (fr : TrackFeature) : TrackFeature :=
  if passes filterFn fr then
    match asn.lookup fr.1.id with
    | some r => (fr.1, some r)
    | none => fr
  else
    (fr.1, none)

/-- Row packing entry point `packFeatures` of ChainTrack: apply the
filter, group by chromosome, pack each group (clustered or not), and
write the resulting rows back into the feature collection.  A falsy
(zero) `maxRows` argument becomes 1000 (`maxRows = maxRows || 1000`). -/
def packFeatures (cluster : Bool) (bpp w : ℚ) (maxRows0 : Nat)
    (filterFn : Option (TrackFeature → Bool))
    (features : List TrackFeature) : List TrackFeature :=
  let maxRows := if maxRows0 = 0 then 1000 else maxRows0
  features.map
    (applyRowDecision filterFn
      (asnOf cluster bpp w maxRows (passingCores filterFn features)))

/-- The `init` assignment
`this.clusterNamedAnnotations = config.clusterNamedAnnotations || true`
restricted to boolean-or-absent configuration values: a truthy value is
returned as itself (necessarily `true`), any falsy value (explicit
`false`, or absent `undefined`) yields the right operand `true`. -/
def initClusterNamedAnnotations (configValue : Option Bool) : Bool :=
  match configValue with
  | some true => true
  | some false => true
  | none => true

/-- Claim-side first-fit packer, written from the words of the claim:
process features in ascending start order; place each in the first row
whose last-occupied end is less than or equal to the feature's visual
start; if none fits and fewer than `maxRows` rows exist, open a new row;
if the capacity is exhausted, leave the feature unassigned. -/
def firstFitGo (maxRows : Nat) (bpp w : ℚ) : List Feature → List Int → List (Nat × Nat)
  | [], _ => []
  | f :: fs, rows =>
    let vs := (visualSpan bpp w f).1
    let ve := (visualSpan bpp w f).2
    match rows.findIdx? (fun e => decide (e ≤ vs)) with
    | some r => (f.id, r) :: firstFitGo maxRows bpp w fs (rows.set r ve)
    | none =>
      if rows.length < maxRows then
        (f.id, rows.length) :: firstFitGo maxRows bpp w fs (rows ++ [ve])
      else
        firstFitGo maxRows bpp w fs rows

/-- Claim-side first-fit packer over a feature list, starting from an
empty set of rows (no sentinel row). -/
def firstFitPack (bpp w : ℚ) (maxRows : Nat) (l : List Feature) : List (Nat × Nat) :=
  firstFitGo maxRows bpp w (sortByStart l) []

/-- Claim-side first-fit row assignment over bare intervals (start, end),
in input order, as the claim describes it: first row with last end less
than or equal to the start, a new row while capacity remains, no
assignment once the capacity is exhausted. -/
def firstFitRows (maxRows : Nat) : List (Int × Int) → List Int → List (Option Nat)
  | [], _ => []
  | se :: fs, rows =>
    match rows.findIdx? (fun x => decide (x ≤ se.1)) with
    | some r => some r :: firstFitRows maxRows fs (rows.set r se.2)
    | none =>
      if rows.length < maxRows then
        some rows.length :: firstFitRows maxRows fs (rows ++ [se.2])
      else
        none :: firstFitRows maxRows fs rows

end ChainTrack

namespace SelfPairTrack

/-- A self-pair feature as consumed by `SelfPairTrack.pack`: identity and
genomic interval (`fend` models the reserved word `end`). -/
structure Feature where
  id : Nat
  start : Int
  fend : Int
deriving DecidableEq, Repr

/-- JavaScript's `rows[r] = v` on an array of length at least `r`:
in-bounds writes update, the write at `r = rows.length` appends. -/
def setOrPush (rows : List Int) (r : Nat) (v : Int) : List Int :=
  if r < rows.length then rows.set r v else rows ++ [v]

/-- Loop of `SelfPairTrack.pack`: scan rows `0 ≤ r < min(rows.length,
maxRows)` for the first with `feature.start > rows[r]` (strict) and
place there; afterwards the source unconditionally runs
`feature.row = r; rows[r] = feature.end`, so an unplaced feature is
assigned row `r = min(rows.length, maxRows)` and that slot is written
(appending when `r = rows.length`), even when the capacity is
exhausted. -/
def packGo (maxRows : Nat) : List Feature → List Int → List (Nat × Nat)
  | [], _ => []
  | f :: fs, rows =>
    match (rows.take maxRows).findIdx? (fun e => decide (f.start > e)) with
    | some r => (f.id, r) :: packGo maxRows fs (rows.set r f.fend)
    | none =>
      let len := min rows.length maxRows
      (f.id, len) :: packGo maxRows fs (setOrPush rows len f.fend)

/-- Greedy packer `pack` of SelfPairTrack: sort by start, seed the
row-end array with `-1000`, place each feature.  A falsy (zero)
`maxRows` becomes `Number.MAX_SAFE_INTEGER`. -/
def pack (maxRows0 : Nat) (featureList : List Feature) : List (Nat × Nat) :=
  let maxRows := if maxRows0 = 0 then maxSafeInteger else maxRows0
  packGo maxRows
    (featureList.insertionSort fun a b => a.start ≤ b.start) [-1000]

end SelfPairTrack

namespace FeatureRender

/-- Result record of `calculateFeatureCoordinates`: left pixel, right
pixel, and pixel width. -/
structure FeatureCoords where
  px : ℚ
  px1 : ℚ
  pw : ℚ
deriving DecidableEq, Repr

/-- Pixel coordinates of a feature (`calculateFeatureCoordinates` of the
render module): linear map of the genomic interval into pixel space;
when the computed width falls below 3 pixels, the width is forced to 3
and the left edge is moved left by 1.5 pixels. -/
def calculateFeatureCoordinates (start fend bpStart xScale : ℚ) : FeatureCoords :=
  let px := (start - bpStart) / xScale
  let px1 := (fend - bpStart) / xScale
  let pw := px1 - px
  if pw < 3 then
    { px := px - 1.5, px1 := px1, pw := 3 }
  else
    { px := px, px1 := px1, pw := pw }

/-- An exon as used by `renderAminoAcidSequence`: genomic interval and
reading-frame phase (`fend` models the reserved word `end`). -/
structure Exon where
  start : Int
  fend : Int
  phase : Nat
deriving DecidableEq, Repr

/-- Modelled from the spec: the accessor `getEonStart` imported from the
missing module exonUtils.js returns the exon's genomic start. -/
def getEonStart (e : Exon) : Int := e.start

/-- Modelled from the spec: the accessor `getExonEnd` imported from the
missing module exonUtils.js returns the exon's genomic end. -/
def getExonEnd (e : Exon) : Int := e.fend

/-- Modelled from the spec: the accessor `getExonPhase` imported from the
missing module exonUtils.js returns the exon's reading-frame phase, the
number (0 to 2) of leading bases that complete a codon begun in the
previous translated exon. -/
def getExonPhase (e : Exon) : Nat := e.phase

/-- The forward-strand triplet loop of `renderAminoAcidSequence`:
`for (bpTripletStart = ss; bpTripletStart < ee; bpTripletStart += 3)`
painting `[bpTripletStart, min(ee, bpTripletStart + 3))`.  The fuel
argument (at least `ee - s` at the outset) only bounds the recursion;
every iteration advances the cursor by 3. -/
def tripletsFwdGo : Nat → Int → Int → List (Int × Int)
  | 0, _, _ => []
  | fuel + 1, s, ee =>
    if s < ee then (s, min ee (s + 3)) :: tripletsFwdGo fuel (s + 3) ee
    else []

/-- The codon intervals painted by the forward-strand main loop of
`renderAminoAcidSequence` for one exon: the loop starts at
`ss + phase` when the phase is positive (`if (phase > 0) ss += phase`). -/
def renderTripletsFwd (exon : Exon) : List (Int × Int) :=
  let phase := getExonPhase exon
  let ss := if phase > 0 then getEonStart exon + phase else getEonStart exon
  let ee := getExonEnd exon
  tripletsFwdGo (ee - ss).toNat ss ee

/-- The reverse-strand triplet loop of `renderAminoAcidSequence`:
`for (bpTripletEnd = ee; bpTripletEnd > ss; bpTripletEnd -= 3)` painting
`[max(ss, bpTripletEnd - 3), bpTripletEnd)`. -/
def tripletsRevGo : Nat → Int → Int → List (Int × Int)
  | 0, _, _ => []
  | fuel + 1, ss, e =>
    if e > ss then (max ss (e - 3), e) :: tripletsRevGo fuel ss (e - 3)
    else []

/-- The codon intervals painted by the reverse-strand main loop of
`renderAminoAcidSequence` for one exon: the loop starts at `ee - phase`
when the phase is positive (`if (phase > 0) ee -= phase`). -/
def renderTripletsRev (exon : Exon) : List (Int × Int) :=
  let phase := getExonPhase exon
  let ee := if phase > 0 then getExonEnd exon - phase else getExonEnd exon
  let ss := getEonStart exon
  tripletsRevGo (ee - ss).toNat ss ee

/-- The boundary-codon interval painted by
`doPaint(strand, ss - phase, ss, left.aminoAcidLetter, 0, undefined)` on
the forward strand when the phase is positive: at that point `ss` has
already been advanced by the phase, so the interval is the exon's first
`phase` bases. -/
def phaseRegionFwd (exon : Exon) : Option (Int × Int) :=
  if getExonPhase exon > 0 then
    some (getEonStart exon, getEonStart exon + getExonPhase exon)
  else
    none

/-- The boundary-codon interval painted by
`doPaint(strand, ee, ee + phase, ...)` on the reverse strand when the
phase is positive: at that point `ee` has already been reduced by the
phase, so the interval is the exon's last `phase` bases. -/
def phaseRegionRev (exon : Exon) : Option (Int × Int) :=
  if getExonPhase exon > 0 then
    some (getExonEnd exon - getExonPhase exon, getExonEnd exon)
  else
    none

/-- The external reference-sequence collaborator: an availability check
and a base fetch over half-open genomic ranges; the fetch may fail
(`undefined`) or return a string of any length. -/
structure SequenceInterval where
  hasSequence : Int → Int → Bool
  getSequence : Int → Int → Option (List Char)

/-- Mismatch flag computed for one codon of
`renderAminoAcidSequenceAligned` (the `let isMismatch = false; if
(sequenceInterval.hasSequence(...)) ...` block): the flag can only become
true when the range is available, the fetched codon exists with length
exactly 3, the translation table knows the (strand-adjusted) triplet and
the externally supplied amino-acid letter exists and differs.  The
translation table `dict` and the complement function `compl` are the
external collaborators `translationDict` and `complementSequence`. -/
def alignedCodonMismatch (dict : List Char → Option Char)
    (compl : List Char → List Char) (si : SequenceInterval)
    (strand : Char) (lo hi : Int) (aaLetter : Option Char) : Bool :=
  if si.hasSequence lo hi then
    match si.getSequence lo hi with
    | some codonSeq =>
      if codonSeq.length = 3 then
        let codon := if strand = '+' then codonSeq else compl codonSeq.reverse
        match dict codon, aaLetter with
        | some translated, some aa => decide (translated ≠ aa)
        | _, _ => false
      else false
    | none => false
  else false

/-- A chain component as consumed by `drawSequence`: genomic interval,
raw query sequence, and CIGAR string (`cstart`/`cend` model
`component.start`/`component.end`). -/
structure Component where
  cstart : Int
  cend : Int
  seq : List Char
  cigar : String

/-- JavaScript string indexing `s[q]` with a number index: a character
for an integral in-range index, `undefined` otherwise (in particular for
the fractional insertion offsets). -/
def jsCharAt (s : List Char) (q : ℚ) : Option Char :=
  if h : q.den = 1 ∧ 0 ≤ q.num ∧ q.num.toNat < s.length then
    some (s.get ⟨q.num.toNat, h.2.2⟩)
  else
    none

/-- The insertion test of `drawSequence`:
`letter === letter.toLowerCase() && letter !== letter.toUpperCase()`. -/
def isLowerCaseJS (c : Char) : Bool :=
  c = c.toLower && c != c.toUpper

/-- The per-letter base computation of `drawSequence` (lines with
`let base = ' '` and the `componentRefSeq` comparison): a space unless
the reference sequence is present and its character at the position
differs from the uppercased letter, in which case the uppercased letter
itself is drawn.  An out-of-range or fractional index reads `undefined`,
which always differs from a character. -/
def drawSequenceBase (refSeq : Option (List Char)) (pos : ℚ) (letter : Char) : Char :=
  match refSeq with
  | none => ' '
  | some s => if jsCharAt s pos ≠ some letter.toUpper then letter.toUpper else ' '

/-- The `componentRefSeq` fetched by `drawSequence`: defined only when
the collaborator reports the component range available and the fetch
succeeds. -/
def componentRefSeqOf (si : SequenceInterval) (c : Component) : Option (List Char) :=
  if si.hasSequence c.cstart c.cend then si.getSequence c.cstart c.cend else none

/-- The sequence-letter pass of `drawSequence` (the loop labelled "Draw
sequence letters"): for every aligned character that is not a gap, has a
non-negative offset and is not a lowercase insertion, the character that
`fillText` draws (a space for a match or unknown, the uppercased letter
for a mismatch), paired with its offset.  `drawSequence` calls
`getAlignedSequence(component.seq, component.cigar)` without a component
start; the argument is unused, 0 stands for `undefined` here. -/
def drawSequenceBases (si : SequenceInterval) (c : Component) : List (ℚ × Char) :=
  let r := ChainTrack.getAlignedSequence c.seq c.cigar 0
  let refSeq := componentRefSeqOf si c
  (r.aligned.zip r.positions).filterMap fun lp =>
    if lp.1 ≠ '-' ∧ 0 ≤ lp.2 ∧ isLowerCaseJS lp.1 = false then
      some (lp.2, drawSequenceBase refSeq lp.2 lp.1)
    else
      none

end FeatureRender

namespace ChainTrack

theorem decodeM_eq (q : List Char) (n : Nat) (st : AlignResult) :
    decodeM q n st =
      { aligned := st.aligned ++ (q.drop st.seqPos).take n
        positions := st.positions ++
          (List.range' st.refPos (min n (q.length - st.seqPos))).map
            (fun i : ℕ => (i : ℚ))
        seqPos := st.seqPos + min n (q.length - st.seqPos)
        refPos := st.refPos + n } := by
  induction n generalizing st with
  | zero => simp [decodeM]
  | succ n ih =>
    rw [decodeM]
    by_cases h : st.seqPos < q.length
    · rw [dif_pos h, ih]
      have hdrop : q.drop st.seqPos = q.get ⟨st.seqPos, h⟩ :: q.drop (st.seqPos + 1) :=
        List.drop_eq_get_cons h
      have hmin : min (n + 1) (q.length - st.seqPos) =
          min n (q.length - (st.seqPos + 1)) + 1 := by omega
      simp only [AlignResult.mk.injEq]
      refine ⟨?_, ?_, by omega, by omega⟩
      · rw [hdrop, List.take_succ_cons, List.append_assoc, List.singleton_append]
      · rw [hmin, List.range'_succ, List.map_cons, List.append_assoc, List.singleton_append]
    · rw [dif_neg h, ih]
      have hd : q.drop st.seqPos = [] := List.drop_eq_nil_of_le (by omega)
      have h0 : q.length - st.seqPos = 0 := by omega
      simp only [AlignResult.mk.injEq, hd, h0]
      refine ⟨by simp, by simp, by omega, by omega⟩

theorem decodeI_eq (q : List Char) (n : Nat) (st : AlignResult) :
    decodeI q n st =
      { aligned := st.aligned ++ ((q.drop st.seqPos).take n).map Char.toLower
        positions := st.positions ++
          List.replicate (min n (q.length - st.seqPos)) ((st.refPos : ℚ) - 0.5)
        seqPos := st.seqPos + min n (q.length - st.seqPos)
        refPos := st.refPos } := by
  induction n generalizing st with
  | zero => simp [decodeI]
  | succ n ih =>
    rw [decodeI]
    by_cases h : st.seqPos < q.length
    · rw [dif_pos h, ih]
      have hdrop : q.drop st.seqPos = q.get ⟨st.seqPos, h⟩ :: q.drop (st.seqPos + 1) :=
        List.drop_eq_get_cons h
      have hmin : min (n + 1) (q.length - st.seqPos) =
          min n (q.length - (st.seqPos + 1)) + 1 := by omega
      simp only [AlignResult.mk.injEq]
      refine ⟨?_, ?_, by omega, trivial⟩
      · rw [hdrop, List.take_succ_cons, List.map_cons, List.append_assoc,
          List.singleton_append]
      · rw [hmin, List.replicate_succ, List.append_assoc, List.singleton_append]
    · rw [dif_neg h, ih]
      have hd : q.drop st.seqPos = [] := List.drop_eq_nil_of_le (by omega)
      have h0 : q.length - st.seqPos = 0 := by omega
      simp [hd, h0]

theorem decodeD_eq (n : Nat) (st : AlignResult) :
    decodeD n st =
      { aligned := st.aligned ++ List.replicate n '-'
        positions := st.positions ++
          (List.range' st.refPos n).map (fun i : ℕ => (i : ℚ))
        seqPos := st.seqPos
        refPos := st.refPos + n } := by
  induction n generalizing st with
  | zero => simp [decodeD]
  | succ n ih =>
    rw [decodeD, ih]
    simp only [AlignResult.mk.injEq]
    refine ⟨?_, ?_, trivial, by omega⟩
    · rw [List.replicate_succ, List.append_assoc, List.singleton_append]
    · rw [List.range'_succ, List.map_cons, List.append_assoc, List.singleton_append]

end ChainTrack


set_option maxRecDepth 8000 in
set_option maxHeartbeats 2000000 in
/-- Evaluation of the decoder on the twelve-character scenario-B input:
the kernel computes the whole decode, leaving only numeral
normalisation of the rational offsets to norm_num. -/
theorem decode_scenarioB_eval (c0 c1 c2 c3 c4 c5 c6 c7 c8 c9 c10 c11 : Char) :
    ChainTrack.getAlignedSequence [c0,c1,c2,c3,c4,c5,c6,c7,c8,c9,c10,c11]
        "5M2I3M1D4M" 1000 =
      { aligned := [c0,c1,c2,c3,c4, c5.toLower, c6.toLower, c7,c8,c9, '-', c10,c11]
        positions := [0, 1, 2, 3, 4, 9/2, 9/2, 5, 6, 7, 8, 9, 10]
        seqPos := 12
        refPos := 13 } := by
  have h : ChainTrack.getAlignedSequence [c0,c1,c2,c3,c4,c5,c6,c7,c8,c9,c10,c11]
      "5M2I3M1D4M" 1000 =
      { aligned := [c0,c1,c2,c3,c4, c5.toLower, c6.toLower, c7,c8,c9, '-', c10,c11]
        positions := [((0:ℕ):ℚ), ((1:ℕ):ℚ), ((2:ℕ):ℚ), ((3:ℕ):ℚ), ((4:ℕ):ℚ),
          ((5:ℕ):ℚ) - 0.5, ((5:ℕ):ℚ) - 0.5, ((5:ℕ):ℚ), ((6:ℕ):ℚ), ((7:ℕ):ℚ),
          ((8:ℕ):ℚ), ((9:ℕ):ℚ), ((10:ℕ):ℚ)]
        seqPos := 12
        refPos := 13 } := rfl
  rw [h]
  norm_num

/-- C1 (amended): decoding the operation string "5M2I3M1D4M" against a
12-base query yields 5 matched characters at reference-relative offsets
0..4, 2 insertion characters both at offset 4.5, 3 matched characters at
offsets 5..7, 1 deletion placeholder at offset 8, and 2 matched
characters at offsets 9..10 (the trailing 4M operation finds only 2
query characters left and advances the reference alone for its last 2
columns); total reference length consumed is 13 and total query
characters consumed is 12.  The component reference start (1000) is
ignored by the decoder, so all offsets are component-relative, not
absolute. -/
theorem c1_decode_scenarioB (c0 c1 c2 c3 c4 c5 c6 c7 c8 c9 c10 c11 : Char) :
    ChainTrack.getAlignedSequence [c0,c1,c2,c3,c4,c5,c6,c7,c8,c9,c10,c11]
        "5M2I3M1D4M" 1000 =
      { aligned := [c0,c1,c2,c3,c4, c5.toLower, c6.toLower, c7,c8,c9, '-', c10,c11]
        positions := [0, 1, 2, 3, 4, 9/2, 9/2, 5, 6, 7, 8, 9, 10]
        seqPos := 12
        refPos := 13 } :=
  decode_scenarioB_eval c0 c1 c2 c3 c4 c5 c6 c7 c8 c9 c10 c11

/-- C1 counterexample: on a concrete 12-base query the first matched
character of the decode sits at offset 0, not 1000, and the decode emits
13 aligned columns, not the 5+2+3+1+4 = 15 characters the claim
enumerates (the trailing 4M emits only 2 characters from a 12-base
query). -/
theorem c1_counterexample :
    (ChainTrack.getAlignedSequence
        ['A','C','G','T','A','C','G','T','A','C','G','T'] "5M2I3M1D4M" 1000).positions.head? =
      some 0 ∧
    some (0 : ℚ) ≠ some (1000 : ℚ) ∧
    (ChainTrack.getAlignedSequence
        ['A','C','G','T','A','C','G','T','A','C','G','T'] "5M2I3M1D4M" 1000).aligned.length =
      13 ∧
    (13 : ℕ) ≠ 5 + 2 + 3 + 1 + 4 := by
  rw [decode_scenarioB_eval]
  refine ⟨rfl, by norm_num, rfl, by norm_num⟩

/-- C10: the decoded output of getAlignedSequence does not depend on the
componentStart argument in any way: any two component starts give
identical aligned strings, position arrays and cursor values, so the
emitted positions are always relative to offset 0. -/
theorem c10_componentStart_ignored (sequence : List Char) (cigar : String)
    (k1 k2 : Int) :
    ChainTrack.getAlignedSequence sequence cigar k1 =
      ChainTrack.getAlignedSequence sequence cigar k2 := rfl

/-- C9: after init the clusterNamedAnnotations flag is true for every
configuration value, including an explicit false (the source computes
`config.clusterNamedAnnotations || true`), and therefore the
per-chromosome dispatch of packFeatures always takes the packClustered
branch; the plain pack branch is unreachable through configuration. -/
theorem c9_cluster_flag_always_true :
    (∀ v : Option Bool, ChainTrack.initClusterNamedAnnotations v = true) ∧
    (∀ (v : Option Bool) (bpp w : ℚ) (m : Nat) (l : List ChainTrack.Feature),
      ChainTrack.packChr (ChainTrack.initClusterNamedAnnotations v) bpp w m l =
        ChainTrack.packClustered bpp w m l) := by
  have hv : ∀ v : Option Bool, ChainTrack.initClusterNamedAnnotations v = true := by
    intro v
    cases v with
    | none => rfl
    | some b => cases b <;> rfl
  refine ⟨hv, fun v bpp w m l => ?_⟩
  rw [hv v]
  rfl

/-- C7 (amended): when the computed pixel width falls below 3 the
coordinate computation clamps the width to exactly 3 and shifts the left
edge left by exactly 1.5 pixels, which centers the 3-pixel box on the
pixel of the feature's start (left edge), not on the feature's genomic
midpoint; when the computed width is at least 3, left edge and width are
unchanged. -/
theorem c7_min_width_clamp (s e bS xS : ℚ) :
    ((e - bS) / xS - (s - bS) / xS < 3 →
      FeatureRender.calculateFeatureCoordinates s e bS xS =
        { px := (s - bS) / xS - 1.5, px1 := (e - bS) / xS, pw := 3 } ∧
      (s - bS) / xS - 1.5 + 3 / 2 = (s - bS) / xS) ∧
    (3 ≤ (e - bS) / xS - (s - bS) / xS →
      FeatureRender.calculateFeatureCoordinates s e bS xS =
        { px := (s - bS) / xS, px1 := (e - bS) / xS
          pw := (e - bS) / xS - (s - bS) / xS }) := by
  constructor
  · intro h
    constructor
    · rw [FeatureRender.calculateFeatureCoordinates]
      simp only [if_pos h]
    · norm_num
  · intro h
    rw [FeatureRender.calculateFeatureCoordinates]
    simp only [if_neg (not_lt.mpr h)]

/-- C7 witness: the clamp branch at a feature of genomic width 2 at one
base per pixel, and the unclamped branch at width 10. -/
theorem c7_witness :
    FeatureRender.calculateFeatureCoordinates 0 2 0 1 =
      { px := -1.5, px1 := 2, pw := 3 } ∧
    FeatureRender.calculateFeatureCoordinates 0 10 0 1 =
      { px := 0, px1 := 10, pw := 10 } := by
  constructor
  · rw [((c7_min_width_clamp 0 2 0 1).1 (by norm_num)).1]
    norm_num
  · rw [(c7_min_width_clamp 0 10 0 1).2 (by norm_num)]
    norm_num

/-- C7 counterexample: for a feature spanning genomic 0..2 viewed at one
base per pixel from base 0, the clamped box spans pixels -1.5..1.5 and
is centered on pixel 0 (the feature's start), while the feature's true
genomic midpoint is at pixel 1: the box is not centered on the
midpoint. -/
theorem c7_counterexample :
    FeatureRender.calculateFeatureCoordinates 0 2 0 1 =
      { px := -1.5, px1 := 2, pw := 3 } ∧
    (-1.5 : ℚ) + 3 / 2 = 0 ∧
    ((0 + 2) / 2 : ℚ) = 1 ∧
    (-1.5 : ℚ) + 3 / 2 ≠ 1 := by
  refine ⟨?_, by norm_num, by norm_num, by norm_num⟩
  rw [FeatureRender.calculateFeatureCoordinates]
  norm_num

/-- C5 (amended): unavailability never produces a mismatch in the codon
renderer: whenever the collaborator reports the range unavailable, or
the fetch returns nothing, or the fetched codon is not exactly 3 bases,
the computed mismatch flag is false.  In the per-base renderer
(drawSequence), when the component range is reported unavailable or the
fetch fails outright, every drawn base is the blank character, so no
mismatch letter is emitted; a fetched sequence that is merely shorter
than a needed offset is however treated as a mismatch there (see the
counterexample). -/
theorem c5_unavailable_no_mismatch :
    (∀ (dict : List Char → Option Char) (compl : List Char → List Char)
        (si : FeatureRender.SequenceInterval) (strand : Char) (lo hi : Int)
        (aa : Option Char),
      (si.hasSequence lo hi = false ∨ si.getSequence lo hi = none ∨
        ∀ cs, si.getSequence lo hi = some cs → cs.length ≠ 3) →
      FeatureRender.alignedCodonMismatch dict compl si strand lo hi aa = false) ∧
    (∀ (si : FeatureRender.SequenceInterval) (c : FeatureRender.Component),
      FeatureRender.componentRefSeqOf si c = none →
      ∀ p b, (p, b) ∈ FeatureRender.drawSequenceBases si c → b = ' ') := by
  constructor
  · intro dict compl si strand lo hi aa h
    rcases h with h | h | h
    · simp [FeatureRender.alignedCodonMismatch, h]
    · simp [FeatureRender.alignedCodonMismatch, h]
    · cases hseq : si.getSequence lo hi with
      | none => simp [FeatureRender.alignedCodonMismatch, hseq]
      | some cs =>
        have hlen := h cs hseq
        simp [FeatureRender.alignedCodonMismatch, hseq, hlen]
  · intro si c h p b hmem
    rw [FeatureRender.drawSequenceBases] at hmem
    rw [h] at hmem
    rcases List.mem_filterMap.mp hmem with ⟨lp, _, heq⟩
    by_cases hc : lp.1 ≠ '-' ∧ 0 ≤ lp.2 ∧ FeatureRender.isLowerCaseJS lp.1 = false
    · rw [if_pos hc] at heq
      have hpair := Option.some.inj heq
      have hb : FeatureRender.drawSequenceBase none lp.2 lp.1 = b :=
        (Prod.ext_iff.mp hpair).2
      exact hb.symm.trans rfl
    · rw [if_neg hc] at heq
      exact absurd heq (by simp)

/-- C5 witness: with a collaborator that reports every range unavailable,
the codon mismatch flag is false, and the first base drawn for a
two-base matched component is the blank character. -/
theorem c5_witness :
    FeatureRender.alignedCodonMismatch (fun _ => none) (fun l => l)
      ⟨fun _ _ => false, fun _ _ => none⟩ '+' 0 3 (some 'M') = false ∧
    (' ' : Char) = ' ' := by
  constructor
  · exact c5_unavailable_no_mismatch.1 (fun _ => none) (fun l => l)
      ⟨fun _ _ => false, fun _ _ => none⟩ '+' 0 3 (some 'M') (Or.inl rfl)
  · have heval : FeatureRender.drawSequenceBases
        ⟨fun _ _ => false, fun _ _ => none⟩ ⟨0, 2, ['C', 'C'], "2M"⟩ =
        [(((0 : ℕ) : ℚ), ' '), (((1 : ℕ) : ℚ), ' ')] := rfl
    exact c5_unavailable_no_mismatch.2
      ⟨fun _ _ => false, fun _ _ => none⟩ ⟨0, 2, ['C', 'C'], "2M"⟩ rfl
      ((0 : ℕ) : ℚ) ' ' (heval ▸ List.mem_cons_self _ _)

/-- C5 counterexample: a collaborator that reports the component range
available but returns a single-base sequence for it: at offset 1 the
needed reference base is out of range of the fetched sequence
(unavailable), yet drawSequence emits the mismatch letter C there
instead of degrading to a blank. -/
theorem c5_counterexample :
    (((1 : ℕ) : ℚ), 'C') ∈ FeatureRender.drawSequenceBases
      ⟨fun _ _ => true, fun _ _ => some ['A']⟩ ⟨0, 2, ['C', 'C'], "2M"⟩ ∧
    FeatureRender.jsCharAt ['A'] ((1 : ℕ) : ℚ) = none ∧
    ('C' : Char) ≠ ' ' := by
  have heval : FeatureRender.drawSequenceBases
      ⟨fun _ _ => true, fun _ _ => some ['A']⟩ ⟨0, 2, ['C', 'C'], "2M"⟩ =
      [(((0 : ℕ) : ℚ), 'C'), (((1 : ℕ) : ℚ), 'C')] := rfl
  refine ⟨heval ▸ ?_, rfl, by decide⟩
  exact List.mem_cons_of_mem _ (List.mem_cons_self _ _)

namespace FeatureRender

theorem tripletsFwdGo_lower (fuel : Nat) :
    ∀ (s ee : Int), ∀ t ∈ tripletsFwdGo fuel s ee, s ≤ t.1 := by
  induction fuel with
  | zero => intro s ee t ht; simp [tripletsFwdGo] at ht
  | succ fuel ih =>
    intro s ee t ht
    rw [tripletsFwdGo] at ht
    by_cases h : s < ee
    · rw [if_pos h] at ht
      rcases List.mem_cons.mp ht with rfl | ht
      · exact le_refl s
      · have := ih (s + 3) ee t ht
        omega
    · rw [if_neg h] at ht
      simp at ht

theorem tripletsFwdGo_head (fuel : Nat) (s ee : Int) (hf : 0 < fuel) (h : s < ee) :
    (tripletsFwdGo fuel s ee).head? = some (s, min ee (s + 3)) := by
  cases fuel with
  | zero => omega
  | succ fuel => rw [tripletsFwdGo, if_pos h, List.head?_cons]

theorem tripletsRevGo_upper (fuel : Nat) :
    ∀ (ss e : Int), ∀ t ∈ tripletsRevGo fuel ss e, t.2 ≤ e := by
  induction fuel with
  | zero => intro ss e t ht; simp [tripletsRevGo] at ht
  | succ fuel ih =>
    intro ss e t ht
    rw [tripletsRevGo] at ht
    by_cases h : e > ss
    · rw [if_pos h] at ht
      rcases List.mem_cons.mp ht with rfl | ht
      · exact le_refl e
      · have := ih ss (e - 3) t ht
        omega
    · rw [if_neg h] at ht
      simp at ht

theorem tripletsRevGo_head (fuel : Nat) (ss e : Int) (hf : 0 < fuel) (h : ss < e) :
    (tripletsRevGo fuel ss e).head? = some (max ss (e - 3), e) := by
  cases fuel with
  | zero => omega
  | succ fuel => rw [tripletsRevGo, if_pos h, List.head?_cons]

end FeatureRender

/-- C6: for an exon with positive reading-frame phase P, the main codon
loop of renderAminoAcidSequence confines its grouping to the region past
the phase bases: on the forward strand every painted triplet starts at
or after exonStart + P and the first triplet starts exactly at
exonStart + P; on the reverse strand every painted triplet ends at or
before exonEnd - P and the first (rightmost) triplet ends exactly at
exonEnd - P; the exon's own first P bases (forward) or last P bases
(reverse) are painted only by the separate boundary-codon call that
completes the previous translated exon's trailing codon. -/
theorem c6_phase_codon_grouping (exon : FeatureRender.Exon)
    (hpos : 0 < FeatureRender.getExonPhase exon) :
    (∀ t ∈ FeatureRender.renderTripletsFwd exon,
      FeatureRender.getEonStart exon + FeatureRender.getExonPhase exon ≤ t.1) ∧
    (FeatureRender.getEonStart exon + FeatureRender.getExonPhase exon <
        FeatureRender.getExonEnd exon →
      (FeatureRender.renderTripletsFwd exon).head? =
        some (FeatureRender.getEonStart exon + FeatureRender.getExonPhase exon,
          min (FeatureRender.getExonEnd exon)
            (FeatureRender.getEonStart exon + FeatureRender.getExonPhase exon + 3))) ∧
    (∀ t ∈ FeatureRender.renderTripletsRev exon,
      t.2 ≤ FeatureRender.getExonEnd exon - FeatureRender.getExonPhase exon) ∧
    (FeatureRender.getEonStart exon <
        FeatureRender.getExonEnd exon - FeatureRender.getExonPhase exon →
      (FeatureRender.renderTripletsRev exon).head? =
        some (max (FeatureRender.getEonStart exon)
            (FeatureRender.getExonEnd exon - FeatureRender.getExonPhase exon - 3),
          FeatureRender.getExonEnd exon - FeatureRender.getExonPhase exon)) ∧
    FeatureRender.phaseRegionFwd exon =
      some (FeatureRender.getEonStart exon,
        FeatureRender.getEonStart exon + FeatureRender.getExonPhase exon) ∧
    FeatureRender.phaseRegionRev exon =
      some (FeatureRender.getExonEnd exon - FeatureRender.getExonPhase exon,
        FeatureRender.getExonEnd exon) := by
  have hif : (if 0 < FeatureRender.getExonPhase exon then
      FeatureRender.getEonStart exon + (FeatureRender.getExonPhase exon : Int) else
      FeatureRender.getEonStart exon) =
      FeatureRender.getEonStart exon + FeatureRender.getExonPhase exon :=
    if_pos hpos
  have hife : (if 0 < FeatureRender.getExonPhase exon then
      FeatureRender.getExonEnd exon - (FeatureRender.getExonPhase exon : Int) else
      FeatureRender.getExonEnd exon) =
      FeatureRender.getExonEnd exon - FeatureRender.getExonPhase exon :=
    if_pos hpos
  refine ⟨?_, ?_, ?_, ?_, ?_, ?_⟩
  · intro t ht
    rw [FeatureRender.renderTripletsFwd, hif] at ht
    exact FeatureRender.tripletsFwdGo_lower _ _ _ t ht
  · intro hlt
    rw [FeatureRender.renderTripletsFwd, hif]
    exact FeatureRender.tripletsFwdGo_head _ _ _ (by omega) hlt
  · intro t ht
    rw [FeatureRender.renderTripletsRev, hife] at ht
    exact FeatureRender.tripletsRevGo_upper _ _ _ t ht
  · intro hlt
    rw [FeatureRender.renderTripletsRev, hife]
    exact FeatureRender.tripletsRevGo_head _ _ _ (by omega) hlt
  · rw [FeatureRender.phaseRegionFwd, if_pos hpos]
  · rw [FeatureRender.phaseRegionRev, if_pos hpos]

/-- C6 witness: a forward exon spanning 100..110 with phase 1 starts its
codon grouping at 101 and leaves base 100 to the boundary-codon paint. -/
theorem c6_witness :
    (FeatureRender.renderTripletsFwd ⟨100, 110, 1⟩).head? = some (101, 104) ∧
    FeatureRender.phaseRegionFwd ⟨100, 110, 1⟩ = some (100, 101) := by
  have h := c6_phase_codon_grouping ⟨100, 110, 1⟩ (by decide)
  constructor
  · have h2 := h.2.1 (by decide)
    rw [h2]
    decide
  · exact h.2.2.2.2.1

/-- Lowercasing an ASCII character can never produce the gap placeholder:
toLower maps the uppercase letters into the lowercase letters and leaves
every other character unchanged. -/
theorem toLower_ne_dash (c : Char) (h : c ≠ '-') : c.toLower ≠ '-' := by
  intro hl
  have ht : c.toLower.toNat = 45 := by rw [hl]; rfl
  rw [Char.toLower] at ht
  by_cases hr : c.toNat ≥ 65 ∧ c.toNat ≤ 90
  · rw [if_pos hr] at ht
    have hv : (c.toNat + 32).isValidChar := Or.inl (by omega)
    rw [Char.ofNat, dif_pos hv] at ht
    have he : (Char.ofNatAux (c.toNat + 32) hv).toNat = c.toNat + 32 := rfl
    omega
  · rw [if_neg hr] at ht
    exact h (Char.eq_of_val_eq (UInt32.ext ht))

namespace ChainTrack

theorem cigarQueryLen_cons (op : CigOp) (ops : List CigOp) :
    cigarQueryLen (op :: ops) =
      (if op.operation = 'M' ∨ op.operation = 'I' ∨ op.operation = 'S' ∨
          op.operation = '=' ∨ op.operation = 'X' then op.length else 0) +
        cigarQueryLen ops := by
  by_cases h : op.operation = 'M' ∨ op.operation = 'I' ∨ op.operation = 'S' ∨
      op.operation = '=' ∨ op.operation = 'X'
  · rw [if_pos h, cigarQueryLen, cigarQueryLen, List.filter_cons,
      if_pos (by simpa using h), List.foldr_cons]
  · rw [if_neg h, cigarQueryLen, cigarQueryLen, List.filter_cons,
      if_neg (by simpa using h), Nat.zero_add]

theorem cigarRefLen_cons (op : CigOp) (ops : List CigOp) :
    cigarRefLen (op :: ops) =
      (if op.operation = 'M' ∨ op.operation = 'D' ∨ op.operation = 'N' ∨
          op.operation = '=' ∨ op.operation = 'X' then op.length else 0) +
        cigarRefLen ops := by
  by_cases h : op.operation = 'M' ∨ op.operation = 'D' ∨ op.operation = 'N' ∨
      op.operation = '=' ∨ op.operation = 'X'
  · rw [if_pos h, cigarRefLen, cigarRefLen, List.filter_cons,
      if_pos (by simpa using h), List.foldr_cons]
  · rw [if_neg h, cigarRefLen, cigarRefLen, List.filter_cons,
      if_neg (by simpa using h), Nat.zero_add]

theorem foldl_refPos (q : List Char) (ops : List CigOp) :
    ∀ st : AlignResult,
      (ops.foldl (decodeOp q) st).refPos = st.refPos + cigarRefLen ops := by
  induction ops with
  | nil =>
    intro st
    rw [List.foldl_nil, cigarRefLen]
    simp
  | cons op ops ih =>
    intro st
    have hr := cigarRefLen_cons op ops
    rw [List.foldl_cons, ih, hr, decodeOp]
    by_cases h1 : op.operation = 'M' ∨ op.operation = '=' ∨ op.operation = 'X'
    · have hc : (if op.operation = 'M' ∨ op.operation = 'D' ∨ op.operation = 'N' ∨
          op.operation = '=' ∨ op.operation = 'X' then op.length else 0) = op.length :=
        if_pos (by tauto)
      rw [if_pos h1, hc, decodeM_eq]
      dsimp only
      omega
    · rw [if_neg h1]
      by_cases h2 : op.operation = 'I'
      · have hc : (if op.operation = 'M' ∨ op.operation = 'D' ∨ op.operation = 'N' ∨
            op.operation = '=' ∨ op.operation = 'X' then op.length else 0) = 0 :=
          if_neg (by rcases op with ⟨len, o⟩; simp_all)
        rw [if_pos h2, hc, decodeI_eq]
        dsimp only
        omega
      · rw [if_neg h2]
        by_cases h3 : op.operation = 'D'
        · have hc : (if op.operation = 'M' ∨ op.operation = 'D' ∨ op.operation = 'N' ∨
              op.operation = '=' ∨ op.operation = 'X' then op.length else 0) = op.length :=
            if_pos (by tauto)
          rw [if_pos h3, hc, decodeD_eq]
          dsimp only
          omega
        · rw [if_neg h3]
          by_cases h4 : op.operation = 'N'
          · have hc : (if op.operation = 'M' ∨ op.operation = 'D' ∨ op.operation = 'N' ∨
                op.operation = '=' ∨ op.operation = 'X' then op.length else 0) = op.length :=
              if_pos (by tauto)
            rw [if_pos h4, hc]
            dsimp only
            omega
          · have hc : (if op.operation = 'M' ∨ op.operation = 'D' ∨ op.operation = 'N' ∨
                op.operation = '=' ∨ op.operation = 'X' then op.length else 0) = 0 :=
              if_neg (by tauto)
            rw [if_neg h4, hc]
            by_cases h5 : op.operation = 'S' ∨ op.operation = 'H'
            · rw [if_pos h5]
              dsimp only
              omega
            · rw [if_neg h5]
              omega

theorem foldl_seqPos (q : List Char) (ops : List CigOp) :
    ∀ st : AlignResult, (∀ op ∈ ops, op.operation ≠ 'H') →
      st.seqPos + cigarQueryLen ops ≤ q.length →
      (ops.foldl (decodeOp q) st).seqPos = st.seqPos + cigarQueryLen ops := by
  induction ops with
  | nil =>
    intro st _ _
    rw [List.foldl_nil, cigarQueryLen]
    simp
  | cons op ops ih =>
    intro st hH hle
    have hH' : ∀ o ∈ ops, o.operation ≠ 'H' :=
      fun o ho => hH o (List.mem_cons_of_mem _ ho)
    have hHop : op.operation ≠ 'H' := hH op (List.mem_cons_self _ _)
    rw [cigarQueryLen_cons] at hle ⊢
    rw [List.foldl_cons, decodeOp]
    by_cases h1 : op.operation = 'M' ∨ op.operation = '=' ∨ op.operation = 'X'
    · have hc : (if op.operation = 'M' ∨ op.operation = 'I' ∨ op.operation = 'S' ∨
          op.operation = '=' ∨ op.operation = 'X' then op.length else 0) = op.length :=
        if_pos (by tauto)
      rw [hc] at hle ⊢
      rw [if_pos h1, decodeM_eq, ih _ hH' (by dsimp only; omega)]
      dsimp only
      omega
    · rw [if_neg h1]
      by_cases h2 : op.operation = 'I'
      · have hc : (if op.operation = 'M' ∨ op.operation = 'I' ∨ op.operation = 'S' ∨
            op.operation = '=' ∨ op.operation = 'X' then op.length else 0) = op.length :=
          if_pos (by tauto)
        rw [hc] at hle ⊢
        rw [if_pos h2, decodeI_eq, ih _ hH' (by dsimp only; omega)]
        dsimp only
        omega
      · rw [if_neg h2]
        by_cases h3 : op.operation = 'D'
        · have hc : (if op.operation = 'M' ∨ op.operation = 'I' ∨ op.operation = 'S' ∨
              op.operation = '=' ∨ op.operation = 'X' then op.length else 0) = 0 :=
            if_neg (by rcases op with ⟨len, o⟩; simp_all)
          rw [hc] at hle ⊢
          rw [if_pos h3, decodeD_eq, ih _ hH' (by dsimp only; omega)]
          dsimp only
          omega
        · rw [if_neg h3]
          by_cases h4 : op.operation = 'N'
          · have hc : (if op.operation = 'M' ∨ op.operation = 'I' ∨ op.operation = 'S' ∨
                op.operation = '=' ∨ op.operation = 'X' then op.length else 0) = 0 :=
              if_neg (by rcases op with ⟨len, o⟩; simp_all)
            rw [hc] at hle ⊢
            rw [if_pos h4, ih _ hH' (by dsimp only; omega)]
            dsimp only
            omega
          · rw [if_neg h4]
            by_cases h5 : op.operation = 'S' ∨ op.operation = 'H'
            · have h5S : op.operation = 'S' := by tauto
              have hc : (if op.operation = 'M' ∨ op.operation = 'I' ∨ op.operation = 'S' ∨
                  op.operation = '=' ∨ op.operation = 'X' then op.length else 0) = op.length :=
                if_pos (by tauto)
              rw [hc] at hle ⊢
              rw [if_pos h5, ih _ hH' (by dsimp only; omega)]
              dsimp only
              omega
            · have hc : (if op.operation = 'M' ∨ op.operation = 'I' ∨ op.operation = 'S' ∨
                  op.operation = '=' ∨ op.operation = 'X' then op.length else 0) = 0 :=
                if_neg (by tauto)
              rw [hc] at hle ⊢
              rw [if_neg h5, ih _ hH' (by omega)]
              omega

theorem foldl_aligned_filter (q : List Char) (hdash : '-' ∉ q) (ops : List CigOp) :
    ∀ st : AlignResult, noClip ops →
      st.seqPos + cigarQueryLen ops ≤ q.length →
      ((ops.foldl (decodeOp q) st).aligned).filter (fun c => c ≠ '-') =
        (st.aligned).filter (fun c => c ≠ '-') ++ lowerInsSpec q st.seqPos ops := by
  induction ops with
  | nil =>
    intro st _ _
    rw [List.foldl_nil, lowerInsSpec]
    simp
  | cons op ops ih =>
    intro st hnc hle
    have hnc' : noClip ops := fun o ho => hnc o (List.mem_cons_of_mem _ ho)
    have hop := hnc op (List.mem_cons_self _ _)
    rw [cigarQueryLen_cons] at hle
    rw [List.foldl_cons, decodeOp, lowerInsSpec]
    by_cases h1 : op.operation = 'M' ∨ op.operation = '=' ∨ op.operation = 'X'
    · have hc : (if op.operation = 'M' ∨ op.operation = 'I' ∨ op.operation = 'S' ∨
          op.operation = '=' ∨ op.operation = 'X' then op.length else 0) = op.length :=
        if_pos (by tauto)
      rw [hc] at hle
      have hmin : min op.length (q.length - st.seqPos) = op.length := by omega
      rw [if_pos h1, if_pos h1, decodeM_eq, ih _ hnc' (by dsimp only; omega)]
      dsimp only
      have hsl : ((q.drop st.seqPos).take op.length).filter (fun c => c ≠ '-') =
          (q.drop st.seqPos).take op.length := by
        refine List.filter_eq_self.mpr fun c hcm => ?_
        have hq : c ∈ q := List.drop_subset _ _ (List.take_subset _ _ hcm)
        have hne : c ≠ '-' := by
          intro hce
          exact hdash (hce ▸ hq)
        simpa using hne
      rw [List.filter_append, hsl, hmin, List.append_assoc]
    · rw [if_neg h1, if_neg h1]
      by_cases h2 : op.operation = 'I'
      · have hc : (if op.operation = 'M' ∨ op.operation = 'I' ∨ op.operation = 'S' ∨
            op.operation = '=' ∨ op.operation = 'X' then op.length else 0) = op.length :=
          if_pos (by tauto)
        rw [hc] at hle
        have hmin : min op.length (q.length - st.seqPos) = op.length := by omega
        rw [if_pos h2, if_pos h2, decodeI_eq, ih _ hnc' (by dsimp only; omega)]
        dsimp only
        have hsl : (((q.drop st.seqPos).take op.length).map Char.toLower).filter
            (fun c => c ≠ '-') =
            ((q.drop st.seqPos).take op.length).map Char.toLower := by
          refine List.filter_eq_self.mpr fun c hcm => ?_
          rcases List.mem_map.mp hcm with ⟨a, ham, rfl⟩
          have hq : a ∈ q := List.drop_subset _ _ (List.take_subset _ _ ham)
          have hne : a ≠ '-' := by
            intro hce
            exact hdash (hce ▸ hq)
          simpa using toLower_ne_dash a hne
        rw [List.filter_append, hsl, hmin, List.append_assoc]
      · rw [if_neg h2, if_neg h2]
        by_cases h3 : op.operation = 'D'
        · have hc : (if op.operation = 'M' ∨ op.operation = 'I' ∨ op.operation = 'S' ∨
              op.operation = '=' ∨ op.operation = 'X' then op.length else 0) = 0 :=
            if_neg (by rcases op with ⟨len, o⟩; simp_all)
          rw [hc] at hle
          have hsh : ¬(op.operation = 'S' ∨ op.operation = 'H') := by
            rcases op with ⟨len, o⟩; simp_all
          rw [if_pos h3, if_neg hsh, decodeD_eq, ih _ hnc' (by dsimp only; omega)]
          dsimp only
          have hrep : (List.replicate op.length '-').filter (fun c => c ≠ '-') = [] := by
            refine List.filter_eq_nil.mpr fun a ham => ?_
            rw [List.eq_of_mem_replicate ham]
            simp
          rw [List.filter_append, hrep, List.append_nil]
        · rw [if_neg h3]
          by_cases h4 : op.operation = 'N'
          · have hc : (if op.operation = 'M' ∨ op.operation = 'I' ∨ op.operation = 'S' ∨
                op.operation = '=' ∨ op.operation = 'X' then op.length else 0) = 0 :=
              if_neg (by rcases op with ⟨len, o⟩; simp_all)
            rw [hc] at hle
            have hsh : ¬(op.operation = 'S' ∨ op.operation = 'H') := by
              rcases op with ⟨len, o⟩; simp_all
            rw [if_pos h4, if_neg hsh, ih _ hnc' (by dsimp only; omega)]
          · rw [if_neg h4]
            by_cases h5 : op.operation = 'S' ∨ op.operation = 'H'
            · exact absurd h5 (by tauto)
            · have hc : (if op.operation = 'M' ∨ op.operation = 'I' ∨ op.operation = 'S' ∨
                  op.operation = '=' ∨ op.operation = 'X' then op.length else 0) = 0 :=
                if_neg (by tauto)
              rw [hc] at hle
              rw [if_neg h5, if_neg h5, ih _ hnc' (by omega)]

end ChainTrack

/-- C2 (amended): for a nonempty query containing no gap character and
an operation string without clipping operations (S, H) whose summed
M/I/S/=/X lengths equal the query length, the decode conserves both
lengths: the final query cursor equals the query length (every query
character is consumed exactly once, in order); the aligned output with
the deletion placeholders removed is exactly the query sequence with the
characters consumed under I lowercased (so the raw query is recovered up
to that lowercasing, which makes exact recovery fail in general); and
the final reference cursor (the reference span consumed) equals the
summed reference-length contributions of M, D, N, = and X. -/
theorem c2_roundtrip_conservation (q : List Char) (cigar : String)
    (hq : ChainTrack.cigarQueryLen (ChainTrack.parseCigar cigar) = q.length)
    (hnc : ChainTrack.noClip (ChainTrack.parseCigar cigar))
    (hdash : '-' ∉ q) (hne : q ≠ []) :
    (ChainTrack.getAlignedSequence q cigar 0).seqPos = q.length ∧
    ((ChainTrack.getAlignedSequence q cigar 0).aligned).filter (fun c => c ≠ '-') =
      ChainTrack.lowerInsSpec q 0 (ChainTrack.parseCigar cigar) ∧
    (ChainTrack.getAlignedSequence q cigar 0).refPos =
      ChainTrack.cigarRefLen (ChainTrack.parseCigar cigar) := by
  have hcig : cigar ≠ "" := by
    intro h
    subst h
    have : ChainTrack.cigarQueryLen (ChainTrack.parseCigar "") = 0 := rfl
    rw [this] at hq
    exact hne (List.eq_nil_of_length_eq_zero hq.symm)
  rw [ChainTrack.getAlignedSequence, if_neg (by simp [hne, hcig])]
  have hH : ∀ op ∈ ChainTrack.parseCigar cigar, op.operation ≠ 'H' :=
    fun op ho => (hnc op ho).2
  refine ⟨?_, ?_, ?_⟩
  · have h := ChainTrack.foldl_seqPos q (ChainTrack.parseCigar cigar)
      { aligned := [], positions := [], seqPos := 0, refPos := 0 } hH (by simp [hq])
    simpa [hq] using h
  · have h := ChainTrack.foldl_aligned_filter q hdash (ChainTrack.parseCigar cigar)
      { aligned := [], positions := [], seqPos := 0, refPos := 0 } hnc (by simp [hq])
    simpa using h
  · have h := ChainTrack.foldl_refPos q (ChainTrack.parseCigar cigar)
      { aligned := [], positions := [], seqPos := 0, refPos := 0 }
    simpa using h

/-- C2 witness: the query ACG decoded through 1M1I1D1M consumes all 3
query characters, recovers A, c, G (the insertion lowercased) after
removing the deletion placeholder, and consumes 3 reference bases. -/
theorem c2_witness :
    (ChainTrack.getAlignedSequence ['A', 'C', 'G'] "1M1I1D1M" 0).seqPos =
      (['A', 'C', 'G'] : List Char).length ∧
    ((ChainTrack.getAlignedSequence ['A', 'C', 'G'] "1M1I1D1M" 0).aligned).filter
        (fun c => c ≠ '-') =
      ChainTrack.lowerInsSpec ['A', 'C', 'G'] 0 (ChainTrack.parseCigar "1M1I1D1M") ∧
    (ChainTrack.getAlignedSequence ['A', 'C', 'G'] "1M1I1D1M" 0).refPos =
      ChainTrack.cigarRefLen (ChainTrack.parseCigar "1M1I1D1M") :=
  c2_roundtrip_conservation ['A', 'C', 'G'] "1M1I1D1M" (by decide)
    (by unfold ChainTrack.noClip; decide) (by decide) (by decide)

/-- C2 counterexample: the single-character query A decoded through the
operation string 1I (whose summed M/I/S/=/X lengths equal the query
length, 1) emits the lowercased character a, so concatenating the
characters emitted under M, I, =, X does not recover the raw query. -/
theorem c2_counterexample :
    ChainTrack.cigarQueryLen (ChainTrack.parseCigar "1I") =
      (['A'] : List Char).length ∧
    (ChainTrack.getAlignedSequence ['A'] "1I" 0).aligned = ['a'] ∧
    (['a'] : List Char) ≠ ['A'] := by
  refine ⟨by decide, ?_, by decide⟩
  have h : (ChainTrack.getAlignedSequence ['A'] "1I" 0).aligned = ['A'.toLower] := rfl
  rw [h]
  decide

namespace ChainTrack

theorem packGo_eq_firstFitGo (bpp w : ℚ) (m : Nat) :
    ∀ (l : List Feature) (rows1 rows2 : List Int),
      ((rows1 = rows2 ∧ rows2.length ≤ m) ∨
        (rows1 = [-1000] ∧ rows2 = [] ∧ 1 ≤ m)) →
      (∀ f ∈ l, -1000 ≤ (visualSpan bpp w f).1) →
      packGo m bpp w l rows1 = firstFitGo m bpp w l rows2 := by
  intro l
  induction l with
  | nil => intro rows1 rows2 _ _; rfl
  | cons f fs ih =>
    intro rows1 rows2 hR hvs
    have hvf := hvs f (List.mem_cons_self _ _)
    have hvs' : ∀ g ∈ fs, -1000 ≤ (visualSpan bpp w g).1 :=
      fun g hg => hvs g (List.mem_cons_of_mem _ hg)
    rcases hR with ⟨rfl, hlen⟩ | ⟨h1, h2, hm⟩
    · rw [packGo, firstFitGo, List.take_all_of_le hlen]
      have hpred : (fun e => decide ((visualSpan bpp w f).1 ≥ e)) =
          (fun e : Int => decide (e ≤ (visualSpan bpp w f).1)) := rfl
      rw [hpred]
      cases hfind : rows1.findIdx? (fun e : Int => decide (e ≤ (visualSpan bpp w f).1)) with
      | some r =>
        dsimp only
        rw [ih _ _ (Or.inl ⟨rfl, by simpa using hlen⟩) hvs']
      | none =>
        dsimp only
        by_cases hlt : rows1.length < m
        · rw [if_pos hlt, if_pos hlt,
            ih _ _ (Or.inl ⟨rfl, by simp; omega⟩) hvs']
        · rw [if_neg hlt, if_neg hlt, ih _ _ (Or.inl ⟨rfl, hlen⟩) hvs']
    · subst h1 h2
      rw [packGo, firstFitGo]
      have htake : ([(-1000 : Int)]).take m = [(-1000 : Int)] :=
        List.take_all_of_le (by simpa using hm)
      rw [htake]
      have hfind1 : ([(-1000 : Int)]).findIdx?
          (fun e => decide ((visualSpan bpp w f).1 ≥ e)) = some 0 := by
        rw [List.findIdx?_cons]
        simp [hvf]
      rw [hfind1]
      have hfind2 : (([] : List Int)).findIdx?
          (fun e : Int => decide (e ≤ (visualSpan bpp w f).1)) = none := rfl
      rw [hfind2]
      dsimp only
      rw [if_pos (by simpa using hm)]
      have hset : ([(-1000 : Int)]).set 0 (visualSpan bpp w f).2 =
          [] ++ [(visualSpan bpp w f).2] := rfl
      rw [hset, ih _ _ (Or.inl ⟨rfl, by simpa using hm⟩) hvs']
      rfl

end ChainTrack

namespace SelfPairTrack

theorem packGo_ids (m : Nat) :
    ∀ (l : List Feature) (rows : List Int),
      (packGo m l rows).map Prod.fst = l.map Feature.id := by
  intro l
  induction l with
  | nil => intro rows; rfl
  | cons f fs ih =>
    intro rows
    rw [packGo]
    cases hfind : (rows.take m).findIdx? (fun e => decide (f.start > e)) with
    | some r => dsimp only; rw [List.map_cons, ih, List.map_cons]
    | none => dsimp only; rw [List.map_cons, ih, List.map_cons]

end SelfPairTrack

/-- C3 (amended): the ChainTrack packer realises the claimed greedy rule:
provided every feature's visual start is at least the sentinel row end
-1000, it processes features in ascending start order and places each in
the first row whose last-occupied end is less than or equal to the
feature's visual start, opens a new row while fewer than maxRows exist,
and otherwise leaves the feature unassigned.  The SelfPairTrack packer
deviates from the claim: it requires the row's last end to be strictly
less than the feature's start, and it always assigns a row to every
feature, never leaving one unassigned: on exhausted capacity it writes
the feature into row index min(rowCount, maxRows) anyway. -/
theorem c3_greedy_first_fit :
    (∀ (bpp w : ℚ) (m : Nat) (l : List ChainTrack.Feature),
      (∀ f ∈ l, -1000 ≤ (ChainTrack.visualSpan bpp w f).1) →
      ChainTrack.pack bpp w m l =
        ChainTrack.firstFitPack bpp w (if m = 0 then maxSafeInteger else m) l) ∧
    (∀ (m : Nat) (l : List SelfPairTrack.Feature), ∀ f ∈ l,
      f.id ∈ (SelfPairTrack.pack m l).map Prod.fst) := by
  constructor
  · intro bpp w m l hvs
    rw [ChainTrack.pack, ChainTrack.firstFitPack]
    have hvs' : ∀ f ∈ ChainTrack.sortByStart l, -1000 ≤ (ChainTrack.visualSpan bpp w f).1 :=
      fun f hf => hvs f ((List.perm_insertionSort _ l).mem_iff.mp hf)
    have hm : 1 ≤ if m = 0 then maxSafeInteger else m := by
      by_cases h : m = 0
      · rw [if_pos h]
        norm_num [maxSafeInteger]
      · rw [if_neg h]
        omega
    exact ChainTrack.packGo_eq_firstFitGo bpp w _ _ _ _ (Or.inr ⟨rfl, rfl, hm⟩) hvs'
  · intro m l f hf
    rw [SelfPairTrack.pack, SelfPairTrack.packGo_ids]
    exact List.mem_map_of_mem _
      ((List.perm_insertionSort _ l).symm.mem_iff.mp hf)

/-- C3 witness: a one-feature chain list packs identically to the claimed
first-fit rule, and a one-feature self-pair list assigns its feature a
row. -/
theorem c3_witness :
    ChainTrack.pack 1 40 5 [⟨7, "c", none, 0, 10⟩] =
      ChainTrack.firstFitPack 1 40 5 [⟨7, "c", none, 0, 10⟩] ∧
    (3 : Nat) ∈ (SelfPairTrack.pack 5 [⟨3, 0, 10⟩]).map Prod.fst := by
  constructor
  · have h := c3_greedy_first_fit.1 1 40 5 [⟨7, "c", none, 0, 10⟩] (by
      intro f hf
      rcases List.mem_singleton.mp hf with rfl
      norm_num [ChainTrack.visualSpan, ChainTrack.extensionLen])
    simpa using h
  · exact c3_greedy_first_fit.2 5 [⟨3, 0, 10⟩] _ (List.mem_cons_self _ _)

/-- C3 counterexample: with row cap 1, features spanning 0..10 and
10..20: the claimed rule reuses row 0 for the second feature (last end
10 is less than or equal to start 10), but SelfPairTrack.pack uses a
strict comparison, finds no row, and, with the capacity of 1 exhausted,
still assigns row 1 instead of leaving the feature unassigned. -/
theorem c3_counterexample :
    SelfPairTrack.pack 1 [⟨1, 0, 10⟩, ⟨2, 10, 20⟩] = [(1, 0), (2, 1)] ∧
    ChainTrack.firstFitRows 1 [(0, 10), (10, 20)] [] = [some 0, some 0] ∧
    (some 1 : Option Nat) ≠ some 0 := by decide

/-- Folding the first-occurrence insertion step only ever appends to the
accumulator. -/
theorem foldl_insert_extends {α : Type} [DecidableEq α] :
    ∀ (l : List α) (acc : List α),
      ∃ t, l.foldl (fun acc k => if k ∈ acc then acc else acc ++ [k]) acc = acc ++ t := by
  intro l
  induction l with
  | nil => intro acc; exact ⟨[], by simp⟩
  | cons k ks ih =>
    intro acc
    rw [List.foldl_cons]
    by_cases h : k ∈ acc
    · rw [if_pos h]
      exact ih acc
    · rw [if_neg h]
      rcases ih (acc ++ [k]) with ⟨t, ht⟩
      refine ⟨k :: t, ?_⟩
      rw [ht, List.append_assoc, List.singleton_append]

/-- C4 (amended): packClustered groups features by exact name key and
packs the groups sequentially with the greedy first-fit rule over a
single row-end array shared across all groups (the bookkeeping is not
restarted per group).  Consequently two same-named features with
disjoint visual spans are both assigned row 0 whenever their name group
comes first (here: theirs is the name of the first feature and no other
feature shares it), but not regardless of other differently-named
features in the input. -/
theorem c4_clustered_shared_rows (bpp w : ℚ) (m : Nat) (n : String)
    (f g : ChainTrack.Feature) (others : List ChainTrack.Feature)
    (hfn : f.name = some n) (hgn : g.name = some n) (hn : n ≠ "")
    (ho : ∀ o ∈ others, ChainTrack.nameKey o ≠ n)
    (hstart : f.start ≤ g.start)
    (hdisj : (ChainTrack.visualSpan bpp w f).2 ≤ (ChainTrack.visualSpan bpp w g).1)
    (hid : f.id ≠ g.id) :
    (ChainTrack.packClustered bpp w m (f :: g :: others)).lookup f.id = some 0 ∧
    (ChainTrack.packClustered bpp w m (f :: g :: others)).lookup g.id = some 0 := by
  have hkf : ChainTrack.nameKey f = n := by simp [ChainTrack.nameKey, hfn, hn]
  have hkg : ChainTrack.nameKey g = n := by simp [ChainTrack.nameKey, hgn, hn]
  set m' := if m = 0 then maxSafeInteger else m with hm'
  have hm1 : 0 < m' := by
    rw [hm']
    by_cases h : m = 0
    · rw [if_pos h]
      norm_num [maxSafeInteger]
    · rw [if_neg h]
      omega
  obtain ⟨t, ht⟩ := foldl_insert_extends (others.map ChainTrack.nameKey) [n]
  have hkeys : firstOccur ((f :: g :: others).map ChainTrack.nameKey) = n :: t := by
    rw [List.map_cons, List.map_cons, hkf, hkg, firstOccur, List.foldl_cons,
      List.foldl_cons, if_neg (List.not_mem_nil n), List.nil_append,
      if_pos (List.mem_singleton_self n), ht, List.singleton_append]
  have hfilter : (f :: g :: others).filter (fun x => ChainTrack.nameKey x = n) = [f, g] := by
    rw [List.filter_cons_of_pos (by simp [hkf]), List.filter_cons_of_pos (by simp [hkg]),
      List.filter_eq_nil.mpr (by intro o hoo; simp [ho o hoo])]
  have hsort : ChainTrack.sortByStart [f, g] = [f, g] := by
    rw [ChainTrack.sortByStart]
    simp [List.insertionSort, List.orderedInsert, hstart]
  have hge : ChainTrack.rowVal (ChainTrack.visualSpan bpp w f).2 ≤
      (ChainTrack.visualSpan bpp w g).1 := by
    rw [ChainTrack.rowVal]
    split
    · next h0 => omega
    · exact hdisj
  have hgrp : ChainTrack.packClusteredGroupGo m' bpp w [f, g] [] =
      ([(f.id, 0), (g.id, 0)], [(ChainTrack.visualSpan bpp w g).2]) := by
    rw [ChainTrack.packClusteredGroupGo]
    rw [List.take_nil, List.findIdx?_nil]
    dsimp only
    rw [if_pos (by simpa using hm1), List.nil_append]
    rw [ChainTrack.packClusteredGroupGo]
    rw [List.take_all_of_le (by simp; omega), List.findIdx?_cons,
      if_pos (by simpa using hge)]
    dsimp only
    rw [ChainTrack.packClusteredGroupGo]
    rfl
  have hmain : ChainTrack.packClustered bpp w m (f :: g :: others) =
      (f.id, 0) :: (g.id, 0) ::
        ChainTrack.packClusteredKeysGo m' bpp w (f :: g :: others) t
          [(ChainTrack.visualSpan bpp w g).2] := by
    rw [ChainTrack.packClustered, ← hm', hkeys, ChainTrack.packClusteredKeysGo,
      hfilter, hsort, hgrp]
    rfl
  rw [hmain]
  constructor
  · simp [List.lookup]
  · have hb : (g.id == f.id) = false := beq_false_of_ne (Ne.symm hid)
    simp [List.lookup, hb]

/-- C4 witness: two features named a with disjoint spans 0..10 and
20..30 and no other features both land in row 0 under the clustering
packer. -/
theorem c4_witness :
    (ChainTrack.packClustered 1 40 1000
      [⟨1, "c", some "a", 0, 10⟩, ⟨2, "c", some "a", 20, 30⟩]).lookup 1 = some 0 ∧
    (ChainTrack.packClustered 1 40 1000
      [⟨1, "c", some "a", 0, 10⟩, ⟨2, "c", some "a", 20, 30⟩]).lookup 2 = some 0 :=
  c4_clustered_shared_rows 1 40 1000 "a" ⟨1, "c", some "a", 0, 10⟩
    ⟨2, "c", some "a", 20, 30⟩ [] rfl rfl (by decide)
    (by intro o ho; simp at ho) (by decide)
    (by norm_num [ChainTrack.visualSpan, ChainTrack.extensionLen]) (by decide)

/-- C4 counterexample: a differently-named feature (name b, span 0..100,
visually widened to -140..240 by its extension arms) listed first makes
its group pack first into the shared row-end array; the two disjoint
features named a (spans 0..10 and 20..30) then both land in row 1, not
row 0, because the bookkeeping is not restarted for their group. -/
theorem c4_counterexample :
    (ChainTrack.packClustered 1 40 1000
      [⟨0, "c", some "b", 0, 100⟩, ⟨1, "c", some "a", 0, 10⟩,
        ⟨2, "c", some "a", 20, 30⟩]).lookup 1 = some 1 ∧
    (ChainTrack.packClustered 1 40 1000
      [⟨0, "c", some "b", 0, 100⟩, ⟨1, "c", some "a", 0, 10⟩,
        ⟨2, "c", some "a", 20, 30⟩]).lookup 2 = some 1 ∧
    (some 1 : Option Nat) ≠ some 0 ∧
    (ChainTrack.visualSpan 1 40 ⟨1, "c", some "a", 0, 10⟩).2 ≤
      (ChainTrack.visualSpan 1 40 ⟨2, "c", some "a", 20, 30⟩).1 := by
  have hvA : ChainTrack.visualSpan 1 40 ⟨0, "c", some "b", 0, 100⟩ = (-140, 240) := by
    rw [ChainTrack.visualSpan, if_pos (by norm_num [ChainTrack.extensionLen])]
    norm_num [ChainTrack.extensionLen]
  have hvB : ChainTrack.visualSpan 1 40 ⟨1, "c", some "a", 0, 10⟩ = (0, 10) := by
    rw [ChainTrack.visualSpan, if_neg (by norm_num [ChainTrack.extensionLen])]
  have hvC : ChainTrack.visualSpan 1 40 ⟨2, "c", some "a", 20, 30⟩ = (20, 30) := by
    rw [ChainTrack.visualSpan, if_neg (by norm_num [ChainTrack.extensionLen])]
  have hkeys : firstOccur (List.map ChainTrack.nameKey
      [⟨0, "c", some "b", 0, 100⟩, ⟨1, "c", some "a", 0, 10⟩,
        (⟨2, "c", some "a", 20, 30⟩ : ChainTrack.Feature)]) = ["b", "a"] := by decide
  have hfb : List.filter (fun x => decide (ChainTrack.nameKey x = "b"))
      [⟨0, "c", some "b", 0, 100⟩, ⟨1, "c", some "a", 0, 10⟩,
        (⟨2, "c", some "a", 20, 30⟩ : ChainTrack.Feature)] =
      [⟨0, "c", some "b", 0, 100⟩] := by decide
  have hfa : List.filter (fun x => decide (ChainTrack.nameKey x = "a"))
      [⟨0, "c", some "b", 0, 100⟩, ⟨1, "c", some "a", 0, 10⟩,
        (⟨2, "c", some "a", 20, 30⟩ : ChainTrack.Feature)] =
      [⟨1, "c", some "a", 0, 10⟩, ⟨2, "c", some "a", 20, 30⟩] := by decide
  have hsb : ChainTrack.sortByStart [⟨0, "c", some "b", 0, 100⟩] =
      [⟨0, "c", some "b", 0, 100⟩] := by decide
  have hsa : ChainTrack.sortByStart
      [⟨1, "c", some "a", 0, 10⟩, ⟨2, "c", some "a", 20, 30⟩] =
      [⟨1, "c", some "a", 0, 10⟩, ⟨2, "c", some "a", 20, 30⟩] := by decide
  have hgb : ChainTrack.packClusteredGroupGo 1000 1 40
      [⟨0, "c", some "b", 0, 100⟩] [] = ([(0, 0)], [240]) := by
    rw [ChainTrack.packClusteredGroupGo, List.take_nil, List.findIdx?_nil]
    dsimp only
    rw [if_pos (by norm_num)]
    rw [ChainTrack.packClusteredGroupGo]
    simp only [hvA]
    rfl
  have hga : ChainTrack.packClusteredGroupGo 1000 1 40
      [⟨1, "c", some "a", 0, 10⟩, ⟨2, "c", some "a", 20, 30⟩] [240] =
      ([(1, 1), (2, 1)], [240, 30]) := by
    rw [ChainTrack.packClusteredGroupGo]
    simp only [hvB]
    rw [List.take_all_of_le (by norm_num : ([240] : List Int).length ≤ 1000),
      List.findIdx?_cons, if_neg (by decide), List.findIdx?_nil]
    dsimp only
    rw [if_pos (by norm_num)]
    simp only [List.cons_append, List.nil_append]
    rw [ChainTrack.packClusteredGroupGo]
    simp only [hvC]
    rw [List.take_all_of_le (by norm_num : ([240, 10] : List Int).length ≤ 1000),
      List.findIdx?_cons, if_neg (by decide), List.findIdx?_cons, if_pos (by decide)]
    dsimp only
    rw [ChainTrack.packClusteredGroupGo]
    rfl
  have hmain : ChainTrack.packClustered 1 40 1000
      [⟨0, "c", some "b", 0, 100⟩, ⟨1, "c", some "a", 0, 10⟩,
        ⟨2, "c", some "a", 20, 30⟩] = [(0, 0), (1, 1), (2, 1)] := by
    rw [ChainTrack.packClustered]
    rw [show (if (1000 : Nat) = 0 then maxSafeInteger else 1000) = 1000 from rfl]
    rw [hkeys, ChainTrack.packClusteredKeysGo, hfb, hsb, hgb]
    dsimp only
    rw [ChainTrack.packClusteredKeysGo, hfa, hsa, hga]
    dsimp only
    rw [ChainTrack.packClusteredKeysGo]
    rfl
  rw [hmain, hvB, hvC]
  refine ⟨by decide, by decide, by decide, by decide⟩

namespace ChainTrack

theorem applyRowDecision_fst (filterFn : Option (TrackFeature → Bool))
    (asn : List (Nat × Nat)) (fr : TrackFeature) :
    (applyRowDecision filterFn asn fr).1 = fr.1 := by
  by_cases hp : passes filterFn fr = true
  · rw [applyRowDecision, if_pos hp]
    cases asn.lookup fr.1.id <;> rfl
  · rw [applyRowDecision, if_neg hp]

theorem passes_applyRowDecision (filterFn : Option (TrackFeature → Bool))
    (hag : ∀ (c : Feature) (r r' : Option Nat),
      passes filterFn (c, r) = passes filterFn (c, r'))
    (asn : List (Nat × Nat)) (fr : TrackFeature) :
    passes filterFn (applyRowDecision filterFn asn fr) = passes filterFn fr := by
  by_cases hp : passes filterFn fr = true
  · rw [applyRowDecision, if_pos hp]
    cases asn.lookup fr.1.id with
    | some r => exact hag fr.1 (some r) fr.2
    | none => rfl
  · rw [applyRowDecision, if_neg hp]
    exact hag fr.1 none fr.2

theorem applyRowDecision_idem (filterFn : Option (TrackFeature → Bool))
    (hag : ∀ (c : Feature) (r r' : Option Nat),
      passes filterFn (c, r) = passes filterFn (c, r'))
    (asn : List (Nat × Nat)) (fr : TrackFeature) :
    applyRowDecision filterFn asn (applyRowDecision filterFn asn fr) =
      applyRowDecision filterFn asn fr := by
  by_cases hp : passes filterFn fr = true
  · cases hl : asn.lookup fr.1.id with
    | some r =>
      have hy : applyRowDecision filterFn asn fr = (fr.1, some r) := by
        rw [applyRowDecision, if_pos hp]
        rw [hl]
      rw [hy, applyRowDecision, if_pos ((hag fr.1 (some r) fr.2).trans hp)]
      dsimp only
      rw [hl]
    | none =>
      have hy : applyRowDecision filterFn asn fr = fr := by
        rw [applyRowDecision, if_pos hp]
        rw [hl]
      rw [hy]
      exact hy
  · have hy : applyRowDecision filterFn asn fr = (fr.1, none) := by
      rw [applyRowDecision, if_neg hp]
    rw [hy, applyRowDecision,
      if_neg (fun h => hp ((hag fr.1 none fr.2).symm.trans h))]

theorem passingCores_map_apply (filterFn : Option (TrackFeature → Bool))
    (hag : ∀ (c : Feature) (r r' : Option Nat),
      passes filterFn (c, r) = passes filterFn (c, r'))
    (asn : List (Nat × Nat)) :
    ∀ features : List TrackFeature,
      passingCores filterFn (features.map (applyRowDecision filterFn asn)) =
        passingCores filterFn features := by
  intro features
  induction features with
  | nil => rfl
  | cons x xs ih =>
    rw [List.map_cons, passingCores, passingCores, List.filter_cons, List.filter_cons,
      passes_applyRowDecision filterFn hag]
    by_cases hp : passes filterFn x = true
    · rw [if_pos hp, if_pos hp, List.map_cons, List.map_cons, applyRowDecision_fst]
      rw [passingCores, passingCores] at ih
      rw [ih]
    · rw [if_neg hp, if_neg hp]
      rw [passingCores, passingCores] at ih
      rw [ih]

end ChainTrack

/-- C8 (amended): packFeatures is idempotent for every filter that does
not read the mutable row field (in particular when no filter is given):
repacking the updated collection with identical parameters reproduces it
exactly.  With a filter that reads the row field, idempotence fails (see
the counterexample): the claim does not hold for every filter. -/
theorem c8_packFeatures_idempotent (cluster : Bool) (bpp w : ℚ) (maxRows0 : Nat)
    (filterFn : Option (ChainTrack.TrackFeature → Bool))
    (hag : ∀ (c : ChainTrack.Feature) (r r' : Option Nat),
      ChainTrack.passes filterFn (c, r) = ChainTrack.passes filterFn (c, r'))
    (features : List ChainTrack.TrackFeature) :
    ChainTrack.packFeatures cluster bpp w maxRows0 filterFn
        (ChainTrack.packFeatures cluster bpp w maxRows0 filterFn features) =
      ChainTrack.packFeatures cluster bpp w maxRows0 filterFn features := by
  rw [ChainTrack.packFeatures, ChainTrack.packFeatures,
    ChainTrack.passingCores_map_apply filterFn hag, List.map_map]
  exact List.map_congr_left fun fr _ =>
    ChainTrack.applyRowDecision_idem filterFn hag _ fr

/-- C8 witness: with no filter (which trivially ignores the row field),
repacking a one-feature collection reproduces it exactly. -/
theorem c8_witness :
    ChainTrack.packFeatures true 1 40 0 none
        (ChainTrack.packFeatures true 1 40 0 none
          [(⟨5, "c", none, 0, 10⟩, none)]) =
      ChainTrack.packFeatures true 1 40 0 none
        [(⟨5, "c", none, 0, 10⟩, none)] :=
  c8_packFeatures_idempotent true 1 40 0 none (fun _ _ _ => rfl)
    [(⟨5, "c", none, 0, 10⟩, none)]

/-- C8 counterexample: with the row-reading filter "keep features whose
row is unset", the first pass assigns row 0 to the feature, and the
second pass then filters it out and clears its row, so repacking with
identical parameters does not reproduce the assignment. -/
theorem c8_counterexample :
    ChainTrack.packFeatures true 1 40 0 (some fun fr => fr.2.isNone)
        (ChainTrack.packFeatures true 1 40 0 (some fun fr => fr.2.isNone)
          [(⟨5, "c", none, 0, 10⟩, none)]) ≠
      ChainTrack.packFeatures true 1 40 0 (some fun fr => fr.2.isNone)
        [(⟨5, "c", none, 0, 10⟩, none)] := by
  have hv : ChainTrack.visualSpan 1 40 ⟨5, "c", none, 0, 10⟩ = (0, 10) := by
    rw [ChainTrack.visualSpan, if_neg (by norm_num [ChainTrack.extensionLen])]
  have hpc : ChainTrack.packClustered 1 40 1000 [⟨5, "c", none, 0, 10⟩] = [(5, 0)] := by
    rw [ChainTrack.packClustered]
    rw [show (if (1000 : Nat) = 0 then maxSafeInteger else 1000) = 1000 from rfl]
    rw [show firstOccur (List.map ChainTrack.nameKey
      [(⟨5, "c", none, 0, 10⟩ : ChainTrack.Feature)]) = ["__no_name__"] from by decide]
    rw [ChainTrack.packClusteredKeysGo]
    rw [show List.filter (fun x => decide (ChainTrack.nameKey x = "__no_name__"))
      [(⟨5, "c", none, 0, 10⟩ : ChainTrack.Feature)] =
      [⟨5, "c", none, 0, 10⟩] from by decide]
    rw [show ChainTrack.sortByStart [⟨5, "c", none, 0, 10⟩] =
      [⟨5, "c", none, 0, 10⟩] from by decide]
    rw [ChainTrack.packClusteredGroupGo, List.take_nil, List.findIdx?_nil]
    dsimp only
    rw [if_pos (by norm_num), ChainTrack.packClusteredGroupGo]
    simp only [hv]
    rw [ChainTrack.packClusteredKeysGo]
    rfl
  have hP1 : ChainTrack.packFeatures true 1 40 0 (some fun fr => fr.2.isNone)
      [(⟨5, "c", none, 0, 10⟩, none)] = [(⟨5, "c", none, 0, 10⟩, some 0)] := by
    rw [ChainTrack.packFeatures]
    rw [show (if (0 : Nat) = 0 then 1000 else 0) = 1000 from rfl]
    rw [show ChainTrack.passingCores (some fun fr => fr.2.isNone)
      [((⟨5, "c", none, 0, 10⟩ : ChainTrack.Feature), none)] =
      [⟨5, "c", none, 0, 10⟩] from by decide]
    rw [ChainTrack.asnOf]
    rw [show firstOccur (List.map ChainTrack.Feature.chr
      [(⟨5, "c", none, 0, 10⟩ : ChainTrack.Feature)]) = ["c"] from by decide]
    simp only [List.map_cons, List.map_nil]
    rw [show List.filter (fun f => decide (ChainTrack.Feature.chr f = "c"))
      [(⟨5, "c", none, 0, 10⟩ : ChainTrack.Feature)] =
      [⟨5, "c", none, 0, 10⟩] from by decide]
    rw [ChainTrack.packChr, if_pos rfl, hpc]
    rfl
  have hP2 : ChainTrack.packFeatures true 1 40 0 (some fun fr => fr.2.isNone)
      [(⟨5, "c", none, 0, 10⟩, some 0)] = [(⟨5, "c", none, 0, 10⟩, none)] := by
    rw [ChainTrack.packFeatures]
    rw [show (if (0 : Nat) = 0 then 1000 else 0) = 1000 from rfl]
    rw [show ChainTrack.passingCores (some fun fr => fr.2.isNone)
      [((⟨5, "c", none, 0, 10⟩ : ChainTrack.Feature), some 0)] =
      [] from by decide]
    rfl
  rw [hP1, hP2]
  decide
